import Mathlib

/-!
Verification of the airtable.js client library core: the Record entity
(src/lib/record.js), the Table gateway with its listing and page-at-a-time
iteration (src/lib/table.js), and the Action Dispatcher retry policy and
listing-parameter validation (Base.runAction and Query.validateParams, whose
source files are not part of the shown sources and are therefore modelled
from the specification, as marked on their definitions).

JavaScript objects are embedded as key-ordered association lists with unique
keys; JSON values as the inductive type JsonVal; the transport collaborator
as an explicit list of responses consumed in order, so that every stateful
operation becomes a pure function from its inputs and the dispatch outcome
to its resulting state and callback result.
-/

set_option autoImplicit false

/-- JSON values: the untyped field bag of a record maps names to these. -/
inductive JsonVal where
  | null
  | bool (b : Bool)
  | num (n : Int)
  | str (s : String)
  | arr (elems : List JsonVal)
  | obj (members : List (String × JsonVal))

/-- A JavaScript object, embedded as a key-ordered association list. -/
abbrev JsObject := List (String × JsonVal)

/-- Property lookup on a JavaScript object: the first entry with the given
key, none standing for the JS undefined. -/
def getField : JsObject → String → Option JsonVal
  | [], _ => none
  | (k, v) :: rest, name => if k = name then some v else getField rest name

/-- Property assignment on a JavaScript object: overwrite the entry in place
when the key exists, append otherwise (JS objects have unique keys, so
replacing the first occurrence is the JS in-place write). -/
def setKey : JsObject → String → JsonVal → JsObject
  | [], k, v => [(k, v)]
  | (k1, v1) :: rest, k, v =>
    if k1 = k then (k, v) :: rest else (k1, v1) :: setKey rest k v

/-- lodash assign(target, source): copy each own property of source onto
target, in key order, overwriting existing keys in place. -/
def assignObj (target : JsObject) (source : JsObject) : JsObject :=
  source.foldl (fun acc p => setKey acc p.1 p.2) target

/-- The JS expression a || b on nullable strings: a unless a is null or the
empty string (the falsy strings), else b. -/
def jsOrStr (a : Option String) (b : Option String) : Option String :=
  match a with
  | some s => if s = "" then b else some s
  | none => b

/-- The parsed JSON body describing one record in a server response:
{ id, fields, createdTime? }, every member possibly absent. -/
structure RecordJson where
  id : Option String
  fields : Option JsObject
  createdTime : Option String

/-- A structured dispatch error, as surfaced by the Action Dispatcher. -/
structure DispatchError where
  statusCode : Nat
  message : String
deriving DecidableEq, Repr

/-- The in-memory state of a Record entity (record.js): identity, the field
mapping, and the last raw JSON snapshot. -/
structure RecordState where
  id : Option String
  fields : JsObject
  rawJson : Option RecordJson

/-- Record.prototype.setRawJson: store the raw JSON and replace fields
wholesale with (rawJson && rawJson.fields) || \x7b\x7d. -/
def Record.setRawJson (r : RecordState) (rawJson : Option RecordJson) : RecordState :=
  { r with
    rawJson := rawJson
    fields :=
      match rawJson with
      | some j =>
        match j.fields with
        | some f => f
        | none => []
      | none => [] }

/-- The Record constructor (record.js init): id is recordId || recordJson.id,
then setRawJson(recordJson). When both recordId and recordJson are absent the
JS code would throw reading recordJson.id; no caller in the sources does
that, and the embedding leaves the id absent there. -/
def Record.init (recordId : Option String) (recordJson : Option RecordJson) : RecordState :=
  Record.setRawJson
    { id := jsOrStr recordId (recordJson.bind RecordJson.id)
      fields := []
      rawJson := none }
    recordJson

/-- Record.prototype.getId. -/
def Record.getId (r : RecordState) : Option String :=
  r.id

/-- Record.prototype.get: this.fields[columnName], none for undefined. -/
def Record.get (r : RecordState) (columnName : String) : Option JsonVal :=
  getField r.fields columnName

/-- Record.prototype.set: this.fields[columnName] = columnValue. -/
def Record.set (r : RecordState) (columnName : String) (columnValue : JsonVal) : RecordState :=
  { r with fields := setKey r.fields columnName columnValue }

/-- Record.prototype.fetch: one GET dispatch; on error pass it to done and
leave the state untouched, on success setRawJson(results) and call
done(null, that). The dispatch outcome (what runAction hands the callback)
is an explicit argument; the result pairs the post-call state with the
value handed to done. -/
def Record.fetch (r : RecordState) (outcome : Except DispatchError (Option RecordJson)) :
    RecordState × Except DispatchError RecordState :=
  match outcome with
  | .error e => (r, .error e)
  | .ok results =>
    let r2 := Record.setRawJson r results
    (r2, .ok r2)

/-- Record.prototype.patchUpdate: build updateBody = assign(\x7bfields:
cellValuesByName\x7d, opts), dispatch a PATCH, and on success refresh the
snapshot from the response. Returns the outbound request body together with
the post-call state and the value handed to done. -/
def Record.patchUpdate (r : RecordState) (cellValuesByName : JsObject) (opts : JsObject)
    (outcome : Except DispatchError (Option RecordJson)) :
    JsObject × RecordState × Except DispatchError RecordState :=
  let updateBody := assignObj [("fields", JsonVal.obj cellValuesByName)] opts
  match outcome with
  | .error e => (updateBody, r, .error e)
  | .ok results =>
    let r2 := Record.setRawJson r results
    (updateBody, r2, .ok r2)

/-- Record.prototype.putUpdate: same shape as patchUpdate with a PUT. -/
def Record.putUpdate (r : RecordState) (cellValuesByName : JsObject) (opts : JsObject)
    (outcome : Except DispatchError (Option RecordJson)) :
    JsObject × RecordState × Except DispatchError RecordState :=
  let updateBody := assignObj [("fields", JsonVal.obj cellValuesByName)] opts
  match outcome with
  | .error e => (updateBody, r, .error e)
  | .ok results =>
    let r2 := Record.setRawJson r results
    (updateBody, r2, .ok r2)

/-- Record.prototype.save: this.putUpdate(this.fields, done), so opts is the
shifted-in empty object. -/
def Record.save (r : RecordState) (outcome : Except DispatchError (Option RecordJson)) :
    JsObject × RecordState × Except DispatchError RecordState :=
  Record.putUpdate r r.fields [] outcome

/-- Record.prototype.destroy: one DELETE dispatch; the response body is
ignored, the state is never written, done gets the error or the record. -/
def Record.destroy (r : RecordState) (outcome : Except DispatchError (Option RecordJson)) :
    RecordState × Except DispatchError RecordState :=
  match outcome with
  | .error e => (r, .error e)
  | .ok _ => (r, .ok r)

/-- Table._createRecord (table.js): build requestData = assign(\x7bfields:
recordData\x7d, optionalParameters), POST it, and on success construct a new
Record from body.id and the body. Returns the outbound request body and the
value handed to done. -/
def Table.createRecord (recordData : JsObject) (optionalParameters : JsObject)
    (outcome : Except DispatchError RecordJson) :
    JsObject × Except DispatchError RecordState :=
  let requestData := assignObj [("fields", JsonVal.obj recordData)] optionalParameters
  match outcome with
  | .error e => (requestData, .error e)
  | .ok body => (requestData, .ok (Record.init body.id (some body)))

/-- The parsed body of one list-page response: \x7b records, offset? \x7d. -/
structure ListBody where
  records : List RecordJson
  offset : Option String

/-- Table._listRecords (table.js): on error pass it through; on success map
each record JSON to new Record(that, null, recordJson) and hand done the
records together with results.offset. -/
def Table.listRecords (outcome : Except DispatchError ListBody) :
    Except DispatchError (List RecordState × Option String) :=
  match outcome with
  | .error e => .error e
  | .ok results =>
    .ok (results.records.map (fun recordJson => Record.init none (some recordJson)),
      results.offset)

/-- JS truthiness of the nullable offset string tested by if (newOffset):
absent and the empty string are falsy. -/
def offsetTruthy : Option String → Bool
  | none => false
  | some s => s ≠ ""

/-- The records of one page as delivered to the per-record callback by
forEach(page, callback), in server response order. -/
def pageRecords (results : ListBody) : List RecordState :=
  results.records.map (fun recordJson => Record.init none (some recordJson))

/-- How a run of Table._forEachRecord ends: done() with no error, done(err),
or still waiting on a dispatch the finite response trace does not contain. -/
inductive IterOutcome where
  | completed
  | failed (e : DispatchError)
  | pending
deriving DecidableEq, Repr

/-- The observable trace of one Table._forEachRecord run: the offset
parameter of each page fetch that was issued, in issue order; the successive
pages delivered to forEach(page, callback), each in server response order;
and how the run ended. -/
structure IterTrace where
  fetchOffsets : List (Option String)
  pages : List (List RecordState)
  outcome : IterOutcome

/-- The nextPage loop of Table._forEachRecord (table.js): fetch with the
current offset; on error call done(err) and stop; otherwise deliver the page,
and if the response carried a truthy offset advance the cursor and recurse,
else call done(). The transport is the finite list of successive dispatch
outcomes, consumed strictly in order, so the k+1st response can only be
consumed after the kth page was delivered. -/
def Table.forEachPages : Option String → List (Except DispatchError ListBody) → IterTrace
  | _, [] => ⟨[], [], .pending⟩
  | offset, outcome :: rest =>
    match Table.listRecords outcome with
    | .error e => ⟨[offset], [], .failed e⟩
    | .ok (page, newOffset) =>
      if offsetTruthy newOffset then
        let t := Table.forEachPages newOffset rest
        ⟨offset :: t.fetchOffsets, page :: t.pages, t.outcome⟩
      else
        ⟨[offset], [page], .completed⟩

/-- Table._forEachRecord: the iteration starts with offset = null. -/
def Table.forEachRecord (responses : List (Except DispatchError ListBody)) : IterTrace :=
  Table.forEachPages none responses

/-- One raw HTTP response from the transport collaborator. -/
structure HttpResponse where
  statusCode : Nat
  body : JsonVal

/-- What a dispatch resolves to for its caller. -/
inductive DispatchResult where
  | ok (body : JsonVal)
  | rateLimitError
  | remoteError (statusCode : Nat)
  | exhausted

/-- Modelled from the spec: the Action Dispatcher Base.runAction, whose
source file (base.js) is not among the shown sources. Per the specification
it classifies a 2xx response as success returning the parsed body, a 429 as
retryable — re-issuing the identical Action Descriptor after a backoff —
unless managed retry is disabled, in which case the 429 is surfaced
immediately as a rate-limit error, and any other response as a non-retryable
error surfaced immediately. The transport is the list of successive
responses the server returns to re-issues of the one descriptor; the result
is paired with the number of HTTP attempts made. -/
def Base.runAction (noRetryIfRateLimited : Bool) :
    List HttpResponse → DispatchResult × Nat
  | [] => (.exhausted, 0)
  | resp :: rest =>
    if 200 ≤ resp.statusCode ∧ resp.statusCode ≤ 299 then
      (.ok resp.body, 1)
    else if resp.statusCode = 429 then
      if noRetryIfRateLimited then
        (.rateLimitError, 1)
      else
        let t := Base.runAction noRetryIfRateLimited rest
        (t.1, t.2 + 1)
    else
      (.remoteError resp.statusCode, 1)

/-- Modelled from the spec: the names of the recognized listing parameters.
The specification names limit and offset plus the service-defined filter,
sort and field-selection parameters as the validated subset. -/
def validParamNames : List String :=
  ["limit", "offset", "fields", "filterByFormula", "maxRecords", "pageSize",
    "sort", "view", "cellFormat", "timeZone", "userLocale"]

/-- The result shape Query.validateParams hands back to Table._selectRecords:
the accepted parameters, the keys to warn about, and the errors. -/
structure ValidationResults where
  validParams : JsObject
  ignoredKeys : List String
  errors : List String

/-- Modelled from the spec: Query.validateParams, whose source file
(query.js) is not among the shown sources. Per the specification,
unrecognized parameters are rejected locally with an error enumerating them;
recognized parameters are passed through. -/
def Query.validateParams : JsObject → ValidationResults
  | [] => ⟨[], [], []⟩
  | p :: rest =>
    let vr := Query.validateParams rest
    if p.1 ∈ validParamNames then
      { vr with validParams := p :: vr.validParams }
    else
      { vr with errors := ("invalid parameter: " ++ p.1) :: vr.errors }

/-- A constructed Query object: it only stores the validated parameters;
constructing it performs no dispatch. -/
structure QueryModel where
  params : JsObject

/-- Table._selectRecords (table.js): validate the parameters; when any
validation errors exist, fail locally (the assert(false, ...) raising the
formatted error list) without constructing a Query and without any network
interaction — the embedding takes no transport input at all; otherwise
return the Query over the valid parameters. -/
def Table.selectRecords (params : JsObject) : Except (List String) QueryModel :=
  let validationResults := Query.validateParams params
  if validationResults.errors.isEmpty then
    .ok ⟨validationResults.validParams⟩
  else
    .error (validationResults.errors.map (fun error => "  * " ++ error))

/-! Helper lemmas about JavaScript object lookup and lodash assign. -/

theorem getField_setKey_self (o : JsObject) (k : String) (v : JsonVal) :
    getField (setKey o k v) k = some v := by
  induction o with
  | nil => simp [setKey, getField]
  | cons p rest ih =>
    obtain ⟨k1, v1⟩ := p
    by_cases h : k1 = k
    · simp [setKey, h, getField]
    · simp [setKey, h, getField, ih]

theorem getField_setKey_ne (o : JsObject) (k : String) (v : JsonVal) (k2 : String)
    (hne : k2 ≠ k) : getField (setKey o k v) k2 = getField o k2 := by
  have hne2 : k ≠ k2 := fun he => hne he.symm
  induction o with
  | nil => simp [setKey, getField, hne2]
  | cons p rest ih =>
    obtain ⟨k1, v1⟩ := p
    by_cases h : k1 = k
    · subst h
      simp [setKey, getField, hne2]
    · simp [setKey, h, getField, ih]

theorem getField_eq_none_of_not_mem (o : JsObject) (k : String)
    (h : k ∉ o.map Prod.fst) : getField o k = none := by
  induction o with
  | nil => rfl
  | cons p rest ih =>
    obtain ⟨k1, v1⟩ := p
    rw [List.map_cons, List.mem_cons] at h
    push_neg at h
    have hne : k1 ≠ k := fun he => h.1 he.symm
    simp [getField, hne, ih h.2]

theorem getField_assignObj_none (source : JsObject) :
    ∀ (target : JsObject) (k : String), getField source k = none →
    getField (assignObj target source) k = getField target k := by
  induction source with
  | nil => intro t k _; rfl
  | cons p rest ih =>
    intro t k h
    obtain ⟨k1, v1⟩ := p
    have hk : k1 ≠ k := by
      intro he
      simp [getField, he] at h
    have h2 : getField rest k = none := by simpa [getField, hk] using h
    rw [show assignObj t ((k1, v1) :: rest) = assignObj (setKey t k1 v1) rest from rfl,
      ih (setKey t k1 v1) k h2, getField_setKey_ne t k1 v1 k (fun he => hk he.symm)]

theorem getField_assignObj_some (source : JsObject) :
    (source.map Prod.fst).Nodup →
    ∀ (target : JsObject) (k : String) (v : JsonVal), getField source k = some v →
    getField (assignObj target source) k = some v := by
  induction source with
  | nil =>
    intro _ t k v h
    simp [getField] at h
  | cons p rest ih =>
    intro hnd t k v h
    obtain ⟨k1, v1⟩ := p
    rw [List.map_cons, List.nodup_cons] at hnd
    by_cases hk : k1 = k
    · subst hk
      have hv : v1 = v := by simpa [getField] using h
      have hnone : getField rest k1 = none := getField_eq_none_of_not_mem rest k1 hnd.1
      rw [show assignObj t ((k1, v1) :: rest) = assignObj (setKey t k1 v1) rest from rfl,
        getField_assignObj_none rest (setKey t k1 v1) k1 hnone, getField_setKey_self, hv]
    · have h2 : getField rest k = some v := by simpa [getField, hk] using h
      rw [show assignObj t ((k1, v1) :: rest) = assignObj (setKey t k1 v1) rest from rfl]
      exact ih hnd.2 (setKey t k1 v1) k v h2

/-- The request body built by patchUpdate, putUpdate and createRecord, for
every dispatch outcome. -/
theorem requestBody_eq (r : RecordState) (c o : JsObject)
    (out : Except DispatchError (Option RecordJson)) (outc : Except DispatchError RecordJson) :
    (Record.patchUpdate r c o out).1 = assignObj [("fields", JsonVal.obj c)] o
    ∧ (Record.putUpdate r c o out).1 = assignObj [("fields", JsonVal.obj c)] o
    ∧ (Table.createRecord c o outc).1 = assignObj [("fields", JsonVal.obj c)] o := by
  refine ⟨?_, ?_, ?_⟩ <;> cases out <;> cases outc <;> rfl

/-! Helper lemmas about the page-at-a-time iteration loop. -/

/-- A run whose responses are pages with truthy offsets followed by one page
without: every page is delivered in order, each fetch uses the previous
response's offset, and the run completes. -/
theorem forEachPages_success_run (lastB : ListBody)
    (hlast : offsetTruthy lastB.offset = false) :
    ∀ (goods : List ListBody) (off : Option String),
    (∀ b ∈ goods, offsetTruthy b.offset = true) →
    Table.forEachPages off (goods.map Except.ok ++ [Except.ok lastB]) =
      ⟨off :: goods.map ListBody.offset, (goods ++ [lastB]).map pageRecords, .completed⟩ := by
  intro goods
  induction goods with
  | nil =>
    intro off _
    simp [Table.forEachPages, Table.listRecords, hlast, pageRecords]
  | cons g gs ih =>
    intro off hgoods
    have hg : offsetTruthy g.offset = true := hgoods g (List.Mem.head _)
    have hgs : ∀ b ∈ gs, offsetTruthy b.offset = true :=
      fun b hb => hgoods b (List.Mem.tail _ hb)
    simp only [List.map_cons, List.cons_append]
    rw [show Table.forEachPages off
        (Except.ok g :: (gs.map Except.ok ++ [Except.ok lastB])) =
        (if offsetTruthy g.offset then
          let t := Table.forEachPages g.offset (gs.map Except.ok ++ [Except.ok lastB])
          ⟨off :: t.fetchOffsets, pageRecords g :: t.pages, t.outcome⟩
        else ⟨[off], [pageRecords g], .completed⟩ : IterTrace) from rfl,
      hg, if_pos rfl, ih g.offset hgs]

/-- A run whose responses are pages with truthy offsets followed by a
dispatch failure: the pages before the failure are delivered and kept, the
failing fetch is the last one issued no matter what responses follow, and
the run ends failed. -/
theorem forEachPages_failure_run (e : DispatchError)
    (rest : List (Except DispatchError ListBody)) :
    ∀ (goods : List ListBody) (off : Option String),
    (∀ b ∈ goods, offsetTruthy b.offset = true) →
    Table.forEachPages off (goods.map Except.ok ++ (Except.error e :: rest)) =
      ⟨off :: goods.map ListBody.offset, goods.map pageRecords, .failed e⟩ := by
  intro goods
  induction goods with
  | nil =>
    intro off _
    simp [Table.forEachPages, Table.listRecords]
  | cons g gs ih =>
    intro off hgoods
    have hg : offsetTruthy g.offset = true := hgoods g (List.Mem.head _)
    have hgs : ∀ b ∈ gs, offsetTruthy b.offset = true :=
      fun b hb => hgoods b (List.Mem.tail _ hb)
    simp only [List.map_cons, List.cons_append]
    rw [show Table.forEachPages off
        (Except.ok g :: (gs.map Except.ok ++ (Except.error e :: rest))) =
        (if offsetTruthy g.offset then
          let t := Table.forEachPages g.offset (gs.map Except.ok ++ (Except.error e :: rest))
          ⟨off :: t.fetchOffsets, pageRecords g :: t.pages, t.outcome⟩
        else ⟨[off], [pageRecords g], .completed⟩ : IterTrace) from rfl,
      hg, if_pos rfl, ih g.offset hgs]

/-- Membership of the error message for an unrecognized key in the
validation result. -/
theorem validateParams_mem_errors (params : JsObject) (k : String) (v : JsonVal)
    (hmem : (k, v) ∈ params) (hk : k ∉ validParamNames) :
    ("invalid parameter: " ++ k) ∈ (Query.validateParams params).errors := by
  induction params with
  | nil => cases hmem
  | cons p rest ih =>
    rcases List.mem_cons.mp hmem with he | ht
    · rw [← he]
      simp [Query.validateParams, hk]
    · by_cases hp : p.1 ∈ validParamNames
      · simpa [Query.validateParams, hp] using ih ht
      · simp only [Query.validateParams, if_neg hp, List.mem_cons]
        exact Or.inr (ih ht)

/-! The claims. -/

/-- Claim C1, counterexample to the statement as given: the loop in
Table._forEachRecord tests if (newOffset), i.e. JS truthiness, not
non-nullness. A first response carrying the non-null but empty-string offset
does not advance the cursor and fetch again: the iteration completes after a
single fetch, leaving the second available response unconsumed, although the
claim requires another page fetch whenever the response carries a non-null
offset. -/
theorem c1_counterexample :
    (some "" : Option String) ≠ none
    ∧ Table.forEachRecord
        [Except.ok ⟨[], some ""⟩, Except.ok (⟨[], none⟩ : ListBody)] =
      ⟨[none], [[]], IterOutcome.completed⟩ := by
  constructor
  · simp
  · rfl

/-- Claim C1 (amended: «non-null offset» becomes «JS-truthy offset», that is
non-null and non-empty): over responses consisting of pages whose offsets
are truthy followed by one page whose offset is falsy, the run delivers
exactly the pages of the responses, each with its records in server response
order; every fetch after the first uses the offset of the preceding
response; and the iteration ends completed, with no error. In particular
over two pages the pages list has exactly two entries. -/
theorem c1_pageIteration (goods : List ListBody) (lastB : ListBody)
    (hgoods : ∀ b ∈ goods, offsetTruthy b.offset = true)
    (hlast : offsetTruthy lastB.offset = false) :
    Table.forEachRecord (goods.map Except.ok ++ [Except.ok lastB]) =
      ⟨none :: goods.map ListBody.offset, (goods ++ [lastB]).map pageRecords,
        IterOutcome.completed⟩ :=
  forEachPages_success_run lastB hlast goods none hgoods

/-- Witness for C1: a concrete two-page run, the second response without a
truthy offset, delivering both pages then completing. -/
theorem c1_pageIteration_witness :
    (∀ b ∈ [(⟨[], some "page2"⟩ : ListBody)], offsetTruthy b.offset = true)
    ∧ offsetTruthy (⟨[], none⟩ : ListBody).offset = false
    ∧ Table.forEachRecord
        ([(⟨[], some "page2"⟩ : ListBody)].map Except.ok
          ++ [Except.ok (⟨[], none⟩ : ListBody)]) =
      ⟨none :: [(⟨[], some "page2"⟩ : ListBody)].map ListBody.offset,
        ([(⟨[], some "page2"⟩ : ListBody)] ++ [(⟨[], none⟩ : ListBody)]).map pageRecords,
        IterOutcome.completed⟩ :=
  ⟨by decide, by decide,
    c1_pageIteration [⟨[], some "page2"⟩] ⟨[], none⟩ (by decide) (by decide)⟩

/-- Claim C2: a successful fetch, patchUpdate or putUpdate whose response
body carries a fields mapping leaves the snapshot exactly that mapping —
wholesale replacement, never a merge with the prior snapshot, whatever the
prior state was. -/
theorem c2_wholesaleReplace (r : RecordState) (i ct : Option String)
    (f c o : JsObject) :
    (Record.fetch r (Except.ok (some ⟨i, some f, ct⟩))).1.fields = f
    ∧ (Record.patchUpdate r c o (Except.ok (some ⟨i, some f, ct⟩))).2.1.fields = f
    ∧ (Record.putUpdate r c o (Except.ok (some ⟨i, some f, ct⟩))).2.1.fields = f :=
  ⟨rfl, rfl, rfl⟩

/-- Claim C3: with managed retry enabled, a 429 followed by a 200 for the
identical Action Descriptor resolves to the 200 body — the caller never
observes an error — using exactly two attempts; with managed retry disabled,
the first 429 is surfaced immediately as a rate-limit error after a single
attempt, whatever responses would have followed. -/
theorem c3_rateLimitRetry (b429 b200 : JsonVal) (rest rest2 : List HttpResponse) :
    Base.runAction false (⟨429, b429⟩ :: ⟨200, b200⟩ :: rest) = (DispatchResult.ok b200, 2)
    ∧ Base.runAction true (⟨429, b429⟩ :: rest2) = (DispatchResult.rateLimitError, 1) := by
  constructor <;> norm_num [Base.runAction]

/-- Claim C4: when the fetch of some page fails, the failure is the single
reported outcome, the pages already delivered before it are kept, and no
further page is fetched — the failing fetch is the last one issued no matter
what responses would have followed. -/
theorem c4_failureStopsIteration (goods : List ListBody) (e : DispatchError)
    (rest : List (Except DispatchError ListBody))
    (hgoods : ∀ b ∈ goods, offsetTruthy b.offset = true) :
    (Table.forEachRecord (goods.map Except.ok ++ (Except.error e :: rest))).outcome
        = IterOutcome.failed e
    ∧ (Table.forEachRecord (goods.map Except.ok ++ (Except.error e :: rest))).pages
        = goods.map pageRecords
    ∧ (Table.forEachRecord
        (goods.map Except.ok ++ (Except.error e :: rest))).fetchOffsets.length
        = goods.length + 1 := by
  have h := forEachPages_failure_run e rest goods none hgoods
  simp only [Table.forEachRecord] at h ⊢
  rw [h]
  exact ⟨rfl, rfl, by simp⟩

/-- Witness for C4: one good page, then a failing fetch, with one more
response available that is never consumed. -/
theorem c4_failureStopsIteration_witness :
    (∀ b ∈ [(⟨[], some "page2"⟩ : ListBody)], offsetTruthy b.offset = true)
    ∧ (Table.forEachRecord
          ([(⟨[], some "page2"⟩ : ListBody)].map Except.ok
            ++ (Except.error ⟨500, "boom"⟩ :: [Except.ok (⟨[], none⟩ : ListBody)]))).outcome
        = IterOutcome.failed ⟨500, "boom"⟩
    ∧ (Table.forEachRecord
          ([(⟨[], some "page2"⟩ : ListBody)].map Except.ok
            ++ (Except.error ⟨500, "boom"⟩ :: [Except.ok (⟨[], none⟩ : ListBody)]))).pages
        = [(⟨[], some "page2"⟩ : ListBody)].map pageRecords
    ∧ (Table.forEachRecord
          ([(⟨[], some "page2"⟩ : ListBody)].map Except.ok
            ++ (Except.error ⟨500, "boom"⟩
              :: [Except.ok (⟨[], none⟩ : ListBody)]))).fetchOffsets.length
        = [(⟨[], some "page2"⟩ : ListBody)].length + 1 := by
  have h := c4_failureStopsIteration [⟨[], some "page2"⟩] ⟨500, "boom"⟩
    [Except.ok ⟨[], none⟩] (by decide)
  exact ⟨by decide, h.1, h.2.1, h.2.2⟩

/-- Claim C5: on the success path, exactly one fetch is issued per consumed
response (goods.length + 1 fetches for goods.length + 1 responses — no page
is fetched twice), the first fetch carries the null start cursor, fetch i+1
carries exactly the offset returned by response i (strict sequencing: the
next request is determined by, hence issued after, the previous response and
its page delivery), and when the offsets the server returned are pairwise
distinct no offset is used for more than one fetch. -/
theorem c5_sequentialFetch (goods : List ListBody) (lastB : ListBody)
    (hgoods : ∀ b ∈ goods, offsetTruthy b.offset = true)
    (hlast : offsetTruthy lastB.offset = false)
    (hdistinct : (goods.map ListBody.offset).Nodup) :
    (Table.forEachRecord (goods.map Except.ok ++ [Except.ok lastB])).fetchOffsets.length
        = goods.length + 1
    ∧ (Table.forEachRecord (goods.map Except.ok ++ [Except.ok lastB])).fetchOffsets.get? 0
        = some none
    ∧ (∀ i, (Table.forEachRecord
          (goods.map Except.ok ++ [Except.ok lastB])).fetchOffsets.get? (i + 1)
        = (goods.get? i).map ListBody.offset)
    ∧ (Table.forEachRecord
        (goods.map Except.ok ++ [Except.ok lastB])).fetchOffsets.Nodup := by
  have h := forEachPages_success_run lastB hlast goods none hgoods
  simp only [Table.forEachRecord] at h ⊢
  rw [h]
  refine ⟨by simp, rfl, ?_, ?_⟩
  · intro i
    simp [List.get?_eq_getElem?, List.getElem?_map]
  · refine List.nodup_cons.mpr ⟨?_, hdistinct⟩
    intro hmem
    obtain ⟨b, hb, hbe⟩ := List.mem_map.mp hmem
    have hbt := hgoods b hb
    rw [hbe] at hbt
    simp [offsetTruthy] at hbt

/-- Witness for C5: the concrete two-response success run. -/
theorem c5_sequentialFetch_witness :
    (∀ b ∈ [(⟨[], some "page2"⟩ : ListBody)], offsetTruthy b.offset = true)
    ∧ offsetTruthy (⟨[], none⟩ : ListBody).offset = false
    ∧ ([(⟨[], some "page2"⟩ : ListBody)].map ListBody.offset).Nodup
    ∧ (Table.forEachRecord
          ([(⟨[], some "page2"⟩ : ListBody)].map Except.ok
            ++ [Except.ok (⟨[], none⟩ : ListBody)])).fetchOffsets.length
        = [(⟨[], some "page2"⟩ : ListBody)].length + 1 := by
  have h := c5_sequentialFetch [⟨[], some "page2"⟩] ⟨[], none⟩
    (by decide) (by decide) (by decide)
  exact ⟨by decide, by decide, by decide, h.1⟩

/-- Claim C6: a failing dispatch passes the error verbatim to the callback
and leaves the record state exactly as it was, for fetch, patchUpdate,
putUpdate and destroy alike: within these operations the state is only ever
written on the success path. -/
theorem c6_errorLeavesStateUntouched (r : RecordState) (e : DispatchError)
    (c o : JsObject) :
    Record.fetch r (Except.error e) = (r, Except.error e)
    ∧ (Record.patchUpdate r c o (Except.error e)).2 = (r, Except.error e)
    ∧ (Record.putUpdate r c o (Except.error e)).2 = (r, Except.error e)
    ∧ Record.destroy r (Except.error e) = (r, Except.error e) :=
  ⟨rfl, rfl, rfl, rfl⟩

/-- Claim C7: a listing parameter object containing a key outside the
recognized parameter names makes Table.selectRecords fail locally with the
error list enumerating the offending parameter; the embedding of select
takes no transport input at all, so no network interaction is even
representable on this path. -/
theorem c7_selectRejectsUnknownParams (params : JsObject) (k : String) (v : JsonVal)
    (hmem : (k, v) ∈ params) (hk : k ∉ validParamNames) :
    ∃ errs, Table.selectRecords params = Except.error errs
      ∧ ("  * " ++ ("invalid parameter: " ++ k)) ∈ errs := by
  have hmem2 := validateParams_mem_errors params k v hmem hk
  have hne : (Query.validateParams params).errors.isEmpty = false := by
    cases hcase : (Query.validateParams params).errors with
    | nil => rw [hcase] at hmem2; cases hmem2
    | cons a l => rfl
  refine ⟨(Query.validateParams params).errors.map (fun error => "  * " ++ error), ?_, ?_⟩
  · simp [Table.selectRecords, hne]
  · exact List.mem_map.mpr ⟨_, hmem2, rfl⟩

/-- Witness for C7: selecting with the unrecognized parameter foo fails
locally and the error list names foo. -/
theorem c7_selectRejectsUnknownParams_witness :
    (("foo", JsonVal.num 1) ∈ [(("foo" : String), JsonVal.num 1)])
    ∧ (("foo" : String) ∉ validParamNames)
    ∧ ∃ errs, Table.selectRecords [("foo", JsonVal.num 1)] = Except.error errs
        ∧ ("  * " ++ ("invalid parameter: " ++ "foo")) ∈ errs :=
  ⟨List.Mem.head _, by decide,
    c7_selectRejectsUnknownParams [("foo", JsonVal.num 1)] "foo" (JsonVal.num 1)
      (List.Mem.head _) (by decide)⟩

/-- Claim C8: no operation ever writes the id: fetch, patchUpdate,
putUpdate, destroy, save, set and setRawJson all leave the id exactly as it
was after construction, whatever the dispatch outcome. -/
theorem c8_idImmutable (r : RecordState) (raw : Option RecordJson) (c o : JsObject)
    (k : String) (v : JsonVal) (out : Except DispatchError (Option RecordJson)) :
    (Record.fetch r out).1.id = r.id
    ∧ (Record.patchUpdate r c o out).2.1.id = r.id
    ∧ (Record.putUpdate r c o out).2.1.id = r.id
    ∧ (Record.destroy r out).1.id = r.id
    ∧ (Record.save r out).2.1.id = r.id
    ∧ (Record.set r k v).id = r.id
    ∧ (Record.setRawJson r raw).id = r.id := by
  cases out <;> exact ⟨rfl, rfl, rfl, rfl, rfl, rfl, rfl⟩

/-- Claim C9: for create, patchUpdate and putUpdate the outbound request
body is assign(\x7bfields: changes\x7d, options): the options entries sit at
the top level next to fields, uninterpreted; an options entry named fields
replaces the changes in the body; every other key of the body reads exactly
as in options. -/
theorem c9_requestBodyMerge (r : RecordState) (c o : JsObject)
    (out : Except DispatchError (Option RecordJson))
    (outc : Except DispatchError RecordJson)
    (hO : (o.map Prod.fst).Nodup) :
    ((Record.patchUpdate r c o out).1 = assignObj [("fields", JsonVal.obj c)] o
      ∧ (Record.putUpdate r c o out).1 = assignObj [("fields", JsonVal.obj c)] o
      ∧ (Table.createRecord c o outc).1 = assignObj [("fields", JsonVal.obj c)] o)
    ∧ (∀ w, getField o "fields" = some w →
        getField (assignObj [("fields", JsonVal.obj c)] o) "fields" = some w)
    ∧ (getField o "fields" = none →
        getField (assignObj [("fields", JsonVal.obj c)] o) "fields"
          = some (JsonVal.obj c))
    ∧ (∀ k, k ≠ "fields" →
        getField (assignObj [("fields", JsonVal.obj c)] o) k = getField o k) := by
  refine ⟨requestBody_eq r c o out outc, ?_, ?_, ?_⟩
  · intro w hw
    exact getField_assignObj_some o hO [("fields", JsonVal.obj c)] "fields" w hw
  · intro hnone
    rw [getField_assignObj_none o [("fields", JsonVal.obj c)] "fields" hnone]
    simp [getField]
  · intro k hk
    have hk2 : "fields" ≠ k := fun he => hk he.symm
    cases hcase : getField o k with
    | some w => exact getField_assignObj_some o hO [("fields", JsonVal.obj c)] k w hcase
    | none =>
      rw [getField_assignObj_none o [("fields", JsonVal.obj c)] k hcase]
      simp [getField, hk2]

/-- Witness for C9: concrete changes and options with key-unique options. -/
theorem c9_requestBodyMerge_witness :
    (([(("typecast" : String), JsonVal.bool true)].map Prod.fst).Nodup)
    ∧ ((Record.patchUpdate ⟨none, [], none⟩ [("b", JsonVal.num 2)]
          [("typecast", JsonVal.bool true)] (Except.ok none)).1
        = assignObj [("fields", JsonVal.obj [("b", JsonVal.num 2)])]
            [("typecast", JsonVal.bool true)]) :=
  ⟨by decide,
    (c9_requestBodyMerge ⟨none, [], none⟩ [("b", JsonVal.num 2)]
      [("typecast", JsonVal.bool true)] (Except.ok none)
      (Except.ok ⟨none, none, none⟩) (by decide)).1.1⟩

/-- Claim C10: after construction and after every setRawJson the fields
member is a mapping: absent raw JSON or a raw JSON without a fields member
yields the empty mapping, a present fields member is taken as is; get is
total on every reachable state, returning the looked-up value or none. -/
theorem c10_fieldsAlwaysMapping (r : RecordState) (rid i ct : Option String)
    (f : JsObject) (c : String) :
    (Record.setRawJson r none).fields = []
    ∧ (Record.setRawJson r (some ⟨i, none, ct⟩)).fields = []
    ∧ (Record.setRawJson r (some ⟨i, some f, ct⟩)).fields = f
    ∧ (Record.init rid none).fields = []
    ∧ (Record.init rid (some ⟨i, none, ct⟩)).fields = []
    ∧ (Record.init rid (some ⟨i, some f, ct⟩)).fields = f
    ∧ Record.get (Record.init rid none) c = none
    ∧ Record.get r c = getField r.fields c :=
  ⟨rfl, rfl, rfl, rfl, rfl, rfl, rfl, rfl⟩
